import Mathlib

/-!
Verification development for the agfs repository.

This file shallowly embeds the parts of the source the claims are about:

* the server-side handle manager (`agfs-server/pkg/filesystem/handle_manager.go`,
  whose full text appears inside `handle_manager_test.go` in the source drop),
* the FUSE-side handle bridge (`agfs-fuse/pkg/fusefs/handles.go`),
* the devfs plugin (`agfs-server/pkg/plugins/devfs/devfs.go`),
* the vectorfs async indexing queue (`vectorfs.go`, also inside the source drop).

Go `time.Time` and `time.Duration` values are modelled as integers
(nanoseconds).  Go maps are modelled as association lists with
insert-overwrite and delete-by-key operations.  Plugin file handles are
identified by natural numbers; every handle-manager operation additionally
returns the list of plugin handles whose `Close` method it invoked, so that
"the plugin close was called" becomes a statement about that list.
-/

/-! ## Association-list helpers (the Go `map` embedding) -/

def eraseKey {α : Type} (l : List (String × α)) (k : String) : List (String × α) :=
  l.filter (fun p => p.1 != k)

def insertKey {α : Type} (l : List (String × α)) (k : String) (v : α) :
    List (String × α) :=
  (k, v) :: eraseKey l k

theorem lookup_eraseKey_self {α : Type} (l : List (String × α)) (k : String) :
    (eraseKey l k).lookup k = none := by
  induction l with
  | nil => rfl
  | cons x xs ih =>
    by_cases h : x.1 = k
    · simpa [eraseKey, List.filter, h] using ih
    · have hb : (x.1 == k) = false := beq_eq_false_iff_ne.mpr h
      have hb2 : (k == x.1) = false := beq_eq_false_iff_ne.mpr (Ne.symm h)
      simp only [eraseKey, List.filter, bne, hb, Bool.not_false]
      simpa [List.lookup, hb2, eraseKey] using ih

theorem lookup_insertKey_self {α : Type} (l : List (String × α)) (k : String) (v : α) :
    (insertKey l k v).lookup k = some v := by
  simp [insertKey, List.lookup]

theorem mem_eraseKey {α : Type} {l : List (String × α)} {k : String}
    {p : String × α} (h : p ∈ eraseKey l k) : p ∈ l :=
  List.mem_of_mem_filter h

theorem mem_insertKey {α : Type} {l : List (String × α)} {k : String} {v : α}
    {p : String × α} (h : p ∈ insertKey l k v) : p = (k, v) ∨ p ∈ l := by
  rcases List.mem_cons.mp h with h | h
  · exact Or.inl h
  · exact Or.inr (mem_eraseKey h)

theorem lookup_mem {α : Type} {l : List (String × α)} {k : String} {v : α}
    (h : l.lookup k = some v) : (k, v) ∈ l := by
  induction l with
  | nil => cases h
  | cons x xs ih =>
    by_cases hk : k = x.1
    · have hb : (k == x.1) = true := beq_iff_eq.mpr hk
      rw [show x = (x.1, x.2) from rfl] at *
      simp only [List.lookup, hb] at h
      cases h
      exact List.mem_cons.mpr (Or.inl (by rw [hk]))
    · have hb : (k == x.1) = false := beq_eq_false_iff_ne.mpr hk
      rw [show x = (x.1, x.2) from rfl] at h
      simp only [List.lookup, hb] at h
      exact List.mem_cons.mpr (Or.inr (ih h))

theorem length_filter_lt_of_mem_false {α : Type} {l : List α} {p : α → Bool}
    {x : α} (hx : x ∈ l) (hpx : p x = false) :
    (l.filter p).length < l.length := by
  induction l with
  | nil => cases hx
  | cons y ys ih =>
    rcases List.mem_cons.mp hx with rfl | hmem
    · simp only [List.filter, hpx]
      exact Nat.lt_succ_of_le (List.length_filter_le p ys)
    · cases hpy : p y with
      | false =>
        simp only [List.filter, hpy]
        exact Nat.lt_succ_of_lt (ih hmem)
      | true =>
        simp only [List.filter, hpy, List.length_cons]
        exact Nat.succ_lt_succ (ih hmem)

/-! ## Server-side handle manager (`package filesystem`) -/

/-- Mirrors `HandleManagerConfig` from `handle_manager.go`; durations are in
nanoseconds, `MaxHandles` is Go's `int`. -/
structure HandleManagerConfig where
  DefaultLease : Int
  MaxLease : Int
  MaxHandles : Int
  CleanupInterval : Int
deriving Repr, DecidableEq

/-- Mirrors `DefaultHandleManagerConfig`: 60 s default lease, 5 min max lease,
10000 handles, 10 s cleanup interval. -/
def DefaultHandleManagerConfig : HandleManagerConfig :=
  { DefaultLease := 60 * 1000000000
    MaxLease := 5 * 60 * 1000000000
    MaxHandles := 10000
    CleanupInterval := 10 * 1000000000 }

/-- Mirrors `ManagedHandle`: the underlying plugin `FileHandle` is identified
by a natural number in `Handle`. -/
structure ManagedHandle where
  Handle : Nat
  Path : String
  Flags : Nat
  LeaseTime : Int
  ExpiresAt : Int
  CreatedAt : Int
  LastAccess : Int
deriving Repr, DecidableEq

/-- The mutable state of a `HandleManager`: the `handles` map and the (fixed)
configuration. -/
structure HMState where
  handles : List (String × ManagedHandle)
  config : HandleManagerConfig
deriving Repr, DecidableEq

/-- Error results of handle-manager operations: `ErrNotFound`, the
capacity error produced by `Register`, and a plugin close error forwarded
by `Close`. -/
inductive HMError where
  | notFound : HMError
  | capacityExceeded : Int → HMError
  | pluginClose : String → HMError
deriving Repr, DecidableEq

/-- Mirrors the zero-value defaulting in `NewHandleManager`, which replaces
zero configuration fields by the defaults before use. -/
def NewHandleManagerState (config : HandleManagerConfig) : HMState :=
  { handles := []
    config :=
      { DefaultLease :=
          if config.DefaultLease = 0 then 60 * 1000000000 else config.DefaultLease
        MaxLease :=
          if config.MaxLease = 0 then 5 * 60 * 1000000000 else config.MaxLease
        MaxHandles := if config.MaxHandles = 0 then 10000 else config.MaxHandles
        CleanupInterval :=
          if config.CleanupInterval = 0 then 10 * 1000000000
          else config.CleanupInterval } }

/-- Mirrors `HandleManager.Register`.  The Go method draws a fresh random id
from `generateID`; the id is passed in here.  Returns the Go results
`(id, expiresAt)` or the capacity error, together with the new state. -/
def HandleManager.Register (s : HMState) (handle : Nat) (path : String)
    (flags : Nat) (lease : Int) (now : Int) (id : String) :
    Except HMError (String × Int) × HMState :=
  if (s.handles.length : Int) ≥ s.config.MaxHandles then
    (Except.error (HMError.capacityExceeded s.config.MaxHandles), s)
  else
    let lease1 := if lease ≤ 0 then s.config.DefaultLease else lease
    let lease2 := if lease1 > s.config.MaxLease then s.config.MaxLease else lease1
    let expiresAt := now + lease2
    (Except.ok (id, expiresAt),
      { s with
          handles := insertKey s.handles id
            { Handle := handle
              Path := path
              Flags := flags
              LeaseTime := lease2
              ExpiresAt := expiresAt
              CreatedAt := now
              LastAccess := now } })

/-- Mirrors `HandleManager.Get`: looks a handle up, reaps it (closing the
plugin handle) when `now` is after `ExpiresAt`, and otherwise refreshes the
lease.  The third component lists the plugin handles closed by the call. -/
def HandleManager.Get (s : HMState) (id : String) (now : Int) :
    Except HMError Nat × HMState × List Nat :=
  match s.handles.lookup id with
  | none => (Except.error HMError.notFound, s, [])
  | some mh =>
    if now > mh.ExpiresAt then
      (Except.error HMError.notFound,
        { s with handles := eraseKey s.handles id }, [mh.Handle])
    else
      let mh' := { mh with LastAccess := now, ExpiresAt := now + mh.LeaseTime }
      (Except.ok mh.Handle, { s with handles := insertKey s.handles id mh' }, [])

/-- Mirrors `HandleManager.Renew`: expired handles are closed and removed,
live ones get the (defaulted and clamped) new lease. -/
def HandleManager.Renew (s : HMState) (id : String) (lease : Int) (now : Int) :
    Except HMError Int × HMState × List Nat :=
  match s.handles.lookup id with
  | none => (Except.error HMError.notFound, s, [])
  | some mh =>
    if now > mh.ExpiresAt then
      (Except.error HMError.notFound,
        { s with handles := eraseKey s.handles id }, [mh.Handle])
    else
      let lease1 := if lease ≤ 0 then mh.LeaseTime else lease
      let lease2 := if lease1 > s.config.MaxLease then s.config.MaxLease else lease1
      let mh' :=
        { mh with LeaseTime := lease2, ExpiresAt := now + lease2, LastAccess := now }
      (Except.ok (now + lease2),
        { s with handles := insertKey s.handles id mh' }, [])

/-- Mirrors `HandleManager.Close`: the plugin handle is closed and the record
deleted regardless of the plugin close result; the plugin close result
(`closeErr`, `none` meaning a nil error) is returned to the caller. -/
def HandleManager.Close (s : HMState) (id : String) (closeErr : Option String) :
    Except HMError Unit × HMState × List Nat :=
  match s.handles.lookup id with
  | none => (Except.error HMError.notFound, s, [])
  | some mh =>
    ((match closeErr with
      | none => Except.ok ()
      | some msg => Except.error (HMError.pluginClose msg)),
      { s with handles := eraseKey s.handles id }, [mh.Handle])

/-- Mirrors `HandleManager.cleanup` (one reaper tick): closes and removes
every record with `now > ExpiresAt`, keeping the rest. -/
def HandleManager.cleanup (s : HMState) (now : Int) : HMState × List Nat :=
  ({ s with handles := s.handles.filter (fun p => !decide (now > p.2.ExpiresAt)) },
    (s.handles.filter (fun p => decide (now > p.2.ExpiresAt))).map
      (fun p => p.2.Handle))

/-- Mirrors `HandleManager.List`: a snapshot of the records with
`now.Before(ExpiresAt)`, i.e. `now < ExpiresAt`. -/
def HandleManager.listHandles (s : HMState) (now : Int) : List ManagedHandle :=
  (s.handles.filter (fun p => decide (now < p.2.ExpiresAt))).map (fun p => p.2)

/-- Mirrors `HandleManager.Count`: the size of the `handles` map. -/
def HandleManager.Count (s : HMState) : Nat :=
  s.handles.length

/-- An arbitrary foreground or reaper operation on the handle manager, used
to state invariants over every sequence of operations. -/
inductive HMOp where
  | register : Nat → String → Nat → Int → Int → String → HMOp
  | get : String → Int → HMOp
  | renew : String → Int → Int → HMOp
  | close : String → Option String → HMOp
  | cleanup : Int → HMOp

/-- State transition of a single operation (projecting away results and
close events). -/
def HandleManager.step (s : HMState) : HMOp → HMState
  | HMOp.register h p f l n i => (HandleManager.Register s h p f l n i).2
  | HMOp.get i n => (HandleManager.Get s i n).2.1
  | HMOp.renew i l n => (HandleManager.Renew s i l n).2.1
  | HMOp.close i e => (HandleManager.Close s i e).2.1
  | HMOp.cleanup n => (HandleManager.cleanup s n).1

/-- Runs a sequence of operations from a state. -/
def HandleManager.run (s : HMState) : List HMOp → HMState
  | [] => s
  | op :: rest => HandleManager.run (HandleManager.step s op) rest

/-- The record invariant of the spec data model: every record satisfies
`ExpiresAt = LastAccess + LeaseTime` and `LeaseTime ≤ MaxLease`. -/
def LeaseInvariant (s : HMState) : Prop :=
  ∀ p ∈ s.handles,
    p.2.ExpiresAt = p.2.LastAccess + p.2.LeaseTime ∧
    p.2.LeaseTime ≤ s.config.MaxLease

/-! ## FUSE-side handle bridge (`agfs-fuse/pkg/fusefs/handles.go`)

Only the LOCAL (fallback) read path is modelled: the `handleInfo` record of
a LOCAL handle and `HandleManager.Read` restricted to `handleTypeLocal`.
`client.Read` is modelled as a function from paths to payloads, and each
read reports the plugin reads it performed as `(path, offset, size)`
triples (`size = -1` meaning "to end").  File contents are byte lists;
read offsets and sizes from the kernel are non-negative. -/

/-- The LOCAL variant of `handleInfo`: the path plus the optional
`readBuffer` (`none` mirrors the nil slice before the first read). -/
structure LocalHandleInfo where
  path : String
  readBuffer : Option (List Nat)
deriving Repr, DecidableEq

/-- The slice `data[offset:end]` computed by the LOCAL branch of
`HandleManager.Read`: empty when `offset` is at or past the end, otherwise
the bytes from `offset` up to `min (offset + size) data.length`. -/
def readPortion (data : List Nat) (offset size : Nat) : List Nat :=
  if offset ≥ data.length then []
  else
    let stop := min (offset + size) data.length
    (data.take stop).drop offset

/-- Mirrors the LOCAL branch of `fusefs.HandleManager.Read`: the first read
fetches the whole payload with `client.Read(path, 0, -1)`, caches it in the
handle's `readBuffer`, and returns the requested portion; later reads are
served from the buffer with no plugin read.  The last component is the list
of plugin reads `(path, offset, size)` performed. -/
def FuseHandleManager.ReadLocal (client : String → List Nat)
    (info : LocalHandleInfo) (offset size : Nat) :
    List Nat × LocalHandleInfo × List (String × Int × Int) :=
  match info.readBuffer with
  | none =>
    let data := client info.path
    (readPortion data offset size,
      { info with readBuffer := some data }, [(info.path, 0, -1)])
  | some buf =>
    (readPortion buf offset size, info, [])

/-- Runs a sequence of reads `(offset, size)` on a LOCAL handle, collecting
every plugin read performed. -/
def FuseHandleManager.ReadLocalMany (client : String → List Nat)
    (info : LocalHandleInfo) :
    List (Nat × Nat) → LocalHandleInfo × List (String × Int × Int)
  | [] => (info, [])
  | (offset, size) :: rest =>
    let r := FuseHandleManager.ReadLocal client info offset size
    let tail := FuseHandleManager.ReadLocalMany client r.2.1 rest
    (tail.1, r.2.2 ++ tail.2)

/-! ## devfs plugin (`agfs-server/pkg/plugins/devfs/devfs.go`) -/

/-- Read errors surfaced by plugin `Read` implementations: `io.EOF`,
`filesystem.ErrNotFound`, or another error message. -/
inductive PluginReadError where
  | eof : PluginReadError
  | notFound : PluginReadError
  | other : String → PluginReadError
deriving Repr, DecidableEq

/-- Mirrors `DevFS.Read`: reading `/null` always returns the `io.EOF`
error with a nil byte slice; any other path is not found. -/
def DevFS.Read (path : String) (offset size : Int) :
    Except PluginReadError (List Nat) :=
  if path = "/null" then Except.error PluginReadError.eof
  else Except.error PluginReadError.notFound

/-! ## vectorfs async indexing queue (`vectorfs.go`)

The bounded channel `indexQueue` is modelled as a list bounded by
`queueCap`; the `indexingStatus` nested map as a nested association list;
supervisor goroutines spawned on overflow as a multiset (list) of pending
tasks.  The temporal behaviour (a supervisor blocking until queue space or
shutdown) is modelled by a step per outcome. -/

/-- Mirrors `indexTask`. -/
structure IndexTask where
  namespace_ : String
  digest : String
  fileName : String
  data : String
deriving Repr, DecidableEq

/-- Mirrors `indexingFileInfo` (`StartTime` as an integer instant). -/
structure IndexingFileInfo where
  FileName : String
  StartTime : Int
deriving Repr, DecidableEq

/-- The `indexingStatus` map: namespace to (digest to file info). -/
abbrev IndexingStatus : Type :=
  List (String × List (String × IndexingFileInfo))

/-- Mirrors `addIndexingTask`: inserts the digest into the namespace's inner
map, creating the namespace entry when absent. -/
def VectorFS.addIndexingTask (st : IndexingStatus) (ns digest fileName : String)
    (now : Int) : IndexingStatus :=
  match st.lookup ns with
  | none =>
    insertKey st ns [(digest, { FileName := fileName, StartTime := now })]
  | some inner =>
    insertKey st ns (insertKey inner digest { FileName := fileName, StartTime := now })

/-- Mirrors `removeIndexingTask`: deletes the digest from the namespace's
inner map and drops the namespace entry when it becomes empty. -/
def VectorFS.removeIndexingTask (st : IndexingStatus) (ns digest : String) :
    IndexingStatus :=
  match st.lookup ns with
  | none => st
  | some inner =>
    let inner' := eraseKey inner digest
    if inner'.isEmpty then eraseKey st ns
    else insertKey st ns inner'

/-- Looks up the in-flight marker of `(ns, digest)` in the status map. -/
def VectorFS.statusLookup (st : IndexingStatus) (ns digest : String) :
    Option IndexingFileInfo :=
  match st.lookup ns with
  | none => none
  | some inner => inner.lookup digest

/-- The queue-related state of `VectorFSPlugin`: the bounded `indexQueue`
(capacity `queueCap`, 100 in the source), the `indexingStatus` map, and the
set of overflow supervisor goroutines currently waiting to enqueue. -/
structure VQState where
  indexQueue : List IndexTask
  queueCap : Nat
  indexingStatus : IndexingStatus
  supervising : List IndexTask
deriving DecidableEq

/-- Mirrors the tail of `vectorFS.Write` after `PrepareDocument` returned
`alreadyExists = false`: the task is registered in `indexingStatus`, then a
non-blocking send is tried; when the queue is full a supervisor goroutine is
spawned and the write returns without enqueuing. -/
def VectorFS.writeEnqueue (s : VQState) (t : IndexTask) (now : Int) : VQState :=
  let s1 :=
    { s with
        indexingStatus :=
          VectorFS.addIndexingTask s.indexingStatus t.namespace_ t.digest
            t.fileName now }
  if s1.indexQueue.length < s1.queueCap then
    { s1 with indexQueue := s1.indexQueue ++ [t] }
  else
    { s1 with supervising := s1.supervising ++ [t] }

/-- The two ways a waiting overflow supervisor can resume: the channel send
succeeds (queue space), or the shutdown signal fires. -/
inductive SupervisorEvent where
  | space : SupervisorEvent
  | shutdownSignal : SupervisorEvent
deriving Repr, DecidableEq

/-- Mirrors the body of the supervisor goroutine spawned on overflow: on
queue space the task is enqueued; on shutdown the task is dropped and its
indexing-status marker removed. -/
def VectorFS.supervisorResolve (s : VQState) (t : IndexTask)
    (ev : SupervisorEvent) : VQState :=
  let s1 := { s with supervising := s.supervising.erase t }
  match ev with
  | SupervisorEvent.space => { s1 with indexQueue := s1.indexQueue ++ [t] }
  | SupervisorEvent.shutdownSignal =>
    { s1 with
        indexingStatus :=
          VectorFS.removeIndexingTask s1.indexingStatus t.namespace_ t.digest }

/-- Mirrors one iteration of `indexWorker` receiving a task: the head task
is processed (`indexOk` records whether `IndexChunks` succeeded, which the
worker only logs) and its in-flight marker is removed regardless. -/
def VectorFS.workerStep (s : VQState) (indexOk : Bool) : VQState :=
  match s.indexQueue with
  | [] => s
  | t :: rest =>
    { s with
        indexQueue := rest
        indexingStatus :=
          VectorFS.removeIndexingTask s.indexingStatus t.namespace_ t.digest }

/-! ## Helper lemmas -/

theorem mem_eraseKey_ne {α : Type} {l : List (String × α)} {k : String}
    {p : String × α} (h : p ∈ eraseKey l k) : p.1 ≠ k := by
  have hb := List.of_mem_filter h
  exact bne_iff_ne.mp hb

theorem statusLookup_addIndexingTask_self (st : IndexingStatus)
    (ns digest fileName : String) (now : Int) :
    VectorFS.statusLookup (VectorFS.addIndexingTask st ns digest fileName now)
      ns digest = some { FileName := fileName, StartTime := now } := by
  unfold VectorFS.addIndexingTask VectorFS.statusLookup
  cases h : st.lookup ns with
  | none => simp [lookup_insertKey_self, List.lookup]
  | some inner => simp [lookup_insertKey_self]

theorem statusLookup_removeIndexingTask_self (st : IndexingStatus)
    (ns digest : String) :
    VectorFS.statusLookup (VectorFS.removeIndexingTask st ns digest) ns digest =
      none := by
  unfold VectorFS.removeIndexingTask VectorFS.statusLookup
  cases h : st.lookup ns with
  | none => rw [h]
  | some inner =>
    cases hemp : (eraseKey inner digest).isEmpty with
    | true => simp [hemp, lookup_eraseKey_self]
    | false => simp [hemp, lookup_insertKey_self, lookup_eraseKey_self]

theorem readLocalMany_buffered (client : String → List Nat)
    (info : LocalHandleInfo) (buf : List Nat) (hbuf : info.readBuffer = some buf)
    (reads : List (Nat × Nat)) :
    (FuseHandleManager.ReadLocalMany client info reads).2 = [] ∧
    (FuseHandleManager.ReadLocalMany client info reads).1 = info := by
  induction reads with
  | nil => exact ⟨rfl, rfl⟩
  | cons r rest ih =>
    obtain ⟨offset, size⟩ := r
    simp only [FuseHandleManager.ReadLocalMany, FuseHandleManager.ReadLocal, hbuf]
    exact ⟨by simpa using ih.1, ih.2⟩

theorem readLocalMany_fresh (client : String → List Nat)
    (info : LocalHandleInfo) (hbuf : info.readBuffer = none)
    (reads : List (Nat × Nat)) (hne : reads ≠ []) :
    (FuseHandleManager.ReadLocalMany client info reads).2 =
      [(info.path, 0, -1)] := by
  cases reads with
  | nil => exact absurd rfl hne
  | cons r rest =>
    obtain ⟨offset, size⟩ := r
    simp only [FuseHandleManager.ReadLocalMany, FuseHandleManager.ReadLocal, hbuf]
    have hb2 : ({ info with readBuffer := some (client info.path) } :
        LocalHandleInfo).readBuffer = some (client info.path) := rfl
    rw [List.cons_append, List.nil_append,
      (readLocalMany_buffered client _ _ hb2 rest).1]

theorem leaseInvariant_step (s : HMState) (op : HMOp) (h : LeaseInvariant s) :
    LeaseInvariant (HandleManager.step s op) := by
  cases op with
  | register handle path flags lease now id =>
    by_cases hcap : (s.handles.length : Int) ≥ s.config.MaxHandles
    · simpa only [HandleManager.step, HandleManager.Register, hcap, if_true] using h
    · simp only [HandleManager.step, HandleManager.Register, hcap, if_false]
      intro p hp
      rcases mem_insertKey hp with rfl | hp2
      · refine ⟨rfl, ?_⟩
        by_cases hml :
            (if lease ≤ 0 then s.config.DefaultLease else lease) > s.config.MaxLease
        · simp only [hml, if_true]
          exact le_refl _
        · simp only [hml, if_false]
          exact le_of_not_lt hml
      · exact h p hp2
  | get id now =>
    cases hlk : s.handles.lookup id with
    | none => simpa only [HandleManager.step, HandleManager.Get, hlk] using h
    | some mh =>
      by_cases hexp : now > mh.ExpiresAt
      · simp only [HandleManager.step, HandleManager.Get, hlk, hexp, if_true]
        intro p hp
        exact h p (mem_eraseKey hp)
      · simp only [HandleManager.step, HandleManager.Get, hlk, hexp, if_false]
        intro p hp
        rcases mem_insertKey hp with rfl | hp2
        · exact ⟨rfl, (h _ (lookup_mem hlk)).2⟩
        · exact h p hp2
  | renew id lease now =>
    cases hlk : s.handles.lookup id with
    | none => simpa only [HandleManager.step, HandleManager.Renew, hlk] using h
    | some mh =>
      by_cases hexp : now > mh.ExpiresAt
      · simp only [HandleManager.step, HandleManager.Renew, hlk, hexp, if_true]
        intro p hp
        exact h p (mem_eraseKey hp)
      · simp only [HandleManager.step, HandleManager.Renew, hlk, hexp, if_false]
        intro p hp
        rcases mem_insertKey hp with rfl | hp2
        · refine ⟨rfl, ?_⟩
          by_cases hml :
              (if lease ≤ 0 then mh.LeaseTime else lease) > s.config.MaxLease
          · simp only [hml, if_true]
            exact le_refl _
          · simp only [hml, if_false]
            exact le_of_not_lt hml
        · exact h p hp2
  | close id e =>
    cases hlk : s.handles.lookup id with
    | none => simpa only [HandleManager.step, HandleManager.Close, hlk] using h
    | some mh =>
      simp only [HandleManager.step, HandleManager.Close, hlk]
      intro p hp
      exact h p (mem_eraseKey hp)
  | cleanup now =>
    simp only [HandleManager.step, HandleManager.cleanup]
    intro p hp
    exact h p (List.mem_of_mem_filter hp)

/-- Claim C4: every record in the handle table satisfies
`ExpiresAt = LastAccess + LeaseTime` and `LeaseTime ≤ MaxLease` after every
sequence of register, get, renew, close and reaper operations, for every
configuration, starting from a fresh handle manager. -/
theorem HandleManager.run_lease_invariant (config : HandleManagerConfig)
    (ops : List HMOp) :
    LeaseInvariant (HandleManager.run (NewHandleManagerState config) ops) := by
  have hrun : ∀ s : HMState, LeaseInvariant s →
      LeaseInvariant (HandleManager.run s ops) := by
    induction ops with
    | nil => intro s hs; exact hs
    | cons op rest ih =>
      intro s hs
      exact ih (HandleManager.step s op) (leaseInvariant_step s op hs)
  refine hrun _ ?_
  intro p hp
  cases hp

/-- Witness for C4: a concrete two-operation run (register with lease 0 at
time 100, get at time 130 under config default 100 / max 500) leaves the
single record with `ExpiresAt = 230 = 130 + 100` and `LeaseTime = 100 ≤ 500`. -/
theorem HandleManager.run_lease_invariant_witness :
    (230 : Int) = 130 + 100 ∧ (100 : Int) ≤
      (HandleManager.run
        (NewHandleManagerState ⟨100, 500, 3, 50⟩)
        [HMOp.register 7 "/test/file.txt" 2 0 100 "h_1",
         HMOp.get "h_1" 130]).config.MaxLease :=
  HandleManager.run_lease_invariant ⟨100, 500, 3, 50⟩
    [HMOp.register 7 "/test/file.txt" 2 0 100 "h_1", HMOp.get "h_1" 130]
    ("h_1", ⟨7, "/test/file.txt", 2, 100, 230, 100, 130⟩) (by decide)

/-! ## Concrete fixtures used by witnesses and counterexamples -/

/-- A small configuration: default lease 100, max lease 500, cap 3. -/
def exConfig : HandleManagerConfig := ⟨100, 500, 3, 50⟩

/-- A table at capacity (3 records with cap 3). -/
def exFullState : HMState :=
  ⟨[("h_a", ⟨1, "/test/file.txt", 2, 100, 100, 0, 0⟩),
    ("h_b", ⟨2, "/test/file.txt", 2, 100, 100, 0, 0⟩),
    ("h_c", ⟨3, "/test/file.txt", 2, 100, 100, 0, 0⟩)], exConfig⟩

/-- A table with one record expiring at time 5. -/
def exExpiredState : HMState :=
  ⟨[("h_x", ⟨4, "/test/file.txt", 2, 5, 5, 0, 0⟩)], exConfig⟩

/-- A table with one record whose lease expires exactly at time 5. -/
def exBoundaryState : HMState :=
  ⟨[("h_b", ⟨9, "/test/file.txt", 2, 5, 5, 0, 0⟩)], exConfig⟩

/-- A table with one live record (expires at 100). -/
def exLiveState : HMState :=
  ⟨[("h_a", ⟨7, "/test/file.txt", 2, 100, 100, 0, 0⟩)], exConfig⟩

/-! ## Claims -/

/-- Claim C3: `Register` fails with the capacity error when the table already
holds at least `MaxHandles` records, and the failed registration returns the
state unchanged — no record is added and every existing record keeps its
state. -/
theorem HandleManager.register_capacity_unchanged (s : HMState) (handle : Nat)
    (path : String) (flags : Nat) (lease now : Int) (id : String)
    (hfull : (s.handles.length : Int) ≥ s.config.MaxHandles) :
    HandleManager.Register s handle path flags lease now id =
      (Except.error (HMError.capacityExceeded s.config.MaxHandles), s) := by
  simp only [HandleManager.Register, hfull, if_true]

/-- Witness for C3: registering a fourth handle on a full table with cap 3
fails and leaves the table untouched. -/
theorem HandleManager.register_capacity_unchanged_witness :
    ((exFullState.handles.length : Int) ≥ exFullState.config.MaxHandles) ∧
    HandleManager.Register exFullState 9 "/test/file.txt" 2 0 10 "h_d" =
      (Except.error (HMError.capacityExceeded exFullState.config.MaxHandles),
        exFullState) :=
  ⟨by decide,
    HandleManager.register_capacity_unchanged exFullState 9 "/test/file.txt" 2 0
      10 "h_d" (by decide)⟩

/-- Claim C10: `Count` is the size of the whole table (expired, unreaped
records included) while `listHandles` keeps only records with
`now < ExpiresAt`; hence the list is never longer than the count, is
strictly shorter whenever an expired record is present, and contains no
expired record. -/
theorem HandleManager.count_ge_list_length (s : HMState) (now : Int) :
    (HandleManager.listHandles s now).length ≤ HandleManager.Count s ∧
    (∀ p ∈ s.handles, now > p.2.ExpiresAt →
      (HandleManager.listHandles s now).length < HandleManager.Count s) ∧
    (∀ mh ∈ HandleManager.listHandles s now, now < mh.ExpiresAt) := by
  refine ⟨?_, ?_, ?_⟩
  · unfold HandleManager.listHandles HandleManager.Count
    rw [List.length_map]
    exact List.length_filter_le _ _
  · intro p hp hexp
    unfold HandleManager.listHandles HandleManager.Count
    rw [List.length_map]
    exact length_filter_lt_of_mem_false hp (decide_eq_false (lt_asymm hexp))
  · intro mh hmh
    unfold HandleManager.listHandles at hmh
    rcases List.mem_map.mp hmh with ⟨p, hpf, rfl⟩
    have hc := List.of_mem_filter hpf
    exact of_decide_eq_true hc

/-- Witness for C10: with one record expired at time 6, the list is strictly
shorter than the count. -/
theorem HandleManager.count_ge_list_length_witness :
    (HandleManager.listHandles exExpiredState 6).length <
      HandleManager.Count exExpiredState :=
  (HandleManager.count_ge_list_length exExpiredState 6).2.1
    ("h_x", ⟨4, "/test/file.txt", 2, 5, 5, 0, 0⟩) (by decide) (by decide)

/-- Counterexample to C5 as stated: at a reaper tick at time `now = 5`, the
record with `ExpiresAt = 5` is kept in the table (the reaper only removes
records with `now > ExpiresAt`), yet it does not satisfy `ExpiresAt > now`. -/
theorem HandleManager.cleanup_boundary_counterexample :
    ("h_b", (⟨9, "/test/file.txt", 2, 5, 5, 0, 0⟩ : ManagedHandle)) ∈
      (HandleManager.cleanup exBoundaryState 5).1.handles ∧
    ¬ ((5 : Int) <
        (⟨9, "/test/file.txt", 2, 5, 5, 0, 0⟩ : ManagedHandle).ExpiresAt) := by
  decide

/-- Claim C5 (amended): after a reaper tick at time `now`, every record
remaining in the table satisfies `ExpiresAt ≥ now` (not strictly greater:
a record with `ExpiresAt = now` survives the tick); the tick keeps exactly
the records with `¬ now > ExpiresAt` and closes exactly the plugin handles
of the records with `now > ExpiresAt`. -/
theorem HandleManager.cleanup_reaps_expired (s : HMState) (now : Int) :
    (∀ p ∈ (HandleManager.cleanup s now).1.handles, now ≤ p.2.ExpiresAt) ∧
    (∀ p ∈ s.handles,
      (p ∈ (HandleManager.cleanup s now).1.handles ↔ ¬ now > p.2.ExpiresAt) ∧
      (now > p.2.ExpiresAt → p.2.Handle ∈ (HandleManager.cleanup s now).2)) ∧
    (∀ h ∈ (HandleManager.cleanup s now).2,
      ∃ p ∈ s.handles, now > p.2.ExpiresAt ∧ h = p.2.Handle) := by
  refine ⟨?_, ?_, ?_⟩
  · intro p hp
    unfold HandleManager.cleanup at hp
    have hcond := (List.mem_filter.mp hp).2
    rw [Bool.not_eq_true'] at hcond
    exact not_lt.mp (of_decide_eq_false hcond)
  · intro p hp
    constructor
    · unfold HandleManager.cleanup
      rw [List.mem_filter]
      constructor
      · intro hmem
        have := hmem.2
        rw [Bool.not_eq_true'] at this
        exact of_decide_eq_false this
      · intro hlive
        exact ⟨hp, by rw [decide_eq_false hlive]; rfl⟩
    · intro hexp
      unfold HandleManager.cleanup
      exact List.mem_map.mpr
        ⟨p, List.mem_filter.mpr ⟨hp, decide_eq_true hexp⟩, rfl⟩
  · intro h hmem
    unfold HandleManager.cleanup at hmem
    rcases List.mem_map.mp hmem with ⟨p, hpf, rfl⟩
    have hc := List.of_mem_filter hpf
    exact ⟨p, List.mem_of_mem_filter hpf, of_decide_eq_true hc, rfl⟩

/-- Witness for the amended C5: the boundary record (`ExpiresAt = now = 5`)
survives its tick with `5 ≤ 5`, and the record expired at a tick at time 6
has its plugin handle (4) closed. -/
theorem HandleManager.cleanup_reaps_expired_witness :
    ((5 : Int) ≤ (⟨9, "/test/file.txt", 2, 5, 5, 0, 0⟩ : ManagedHandle).ExpiresAt) ∧
    ((⟨4, "/test/file.txt", 2, 5, 5, 0, 0⟩ : ManagedHandle).Handle ∈
      (HandleManager.cleanup exExpiredState 6).2) :=
  ⟨(HandleManager.cleanup_reaps_expired exBoundaryState 5).1
      ("h_b", ⟨9, "/test/file.txt", 2, 5, 5, 0, 0⟩) (by decide),
    ((HandleManager.cleanup_reaps_expired exExpiredState 6).2.1
      ("h_x", ⟨4, "/test/file.txt", 2, 5, 5, 0, 0⟩) (by decide)).2 (by decide)⟩

/-- The lease-refreshed copy of a record, as written by `Get`:
`LastAccess` becomes `now`, `ExpiresAt` becomes `now + LeaseTime`. -/
def refreshRecord (mh : ManagedHandle) (now : Int) : ManagedHandle :=
  { mh with LastAccess := now, ExpiresAt := now + mh.LeaseTime }

/-- Claim C1: for a registered id whose record has not expired, `Get` returns
the plugin handle stored in the record and afterwards the record has
`LastAccess = now` and `ExpiresAt = now + LeaseTime`; for an expired record
(`now` after `ExpiresAt`), `Get` returns not-found, invokes the plugin
handle close, and removes the record; and a successful `Register` stores
exactly the plugin handle that was passed to it under the returned id. -/
theorem HandleManager.get_lease_contract (s : HMState) (id : String) (now : Int)
    (mh : ManagedHandle) (hlk : s.handles.lookup id = some mh) :
    (¬ now > mh.ExpiresAt →
      HandleManager.Get s id now =
        (Except.ok mh.Handle,
          { s with handles := insertKey s.handles id (refreshRecord mh now) },
          []) ∧
      (HandleManager.Get s id now).2.1.handles.lookup id =
        some (refreshRecord mh now)) ∧
    (now > mh.ExpiresAt →
      HandleManager.Get s id now =
        (Except.error HMError.notFound,
          { s with handles := eraseKey s.handles id }, [mh.Handle]) ∧
      (HandleManager.Get s id now).2.1.handles.lookup id = none) ∧
    (∀ (handle : Nat) (path : String) (flags : Nat) (lease t : Int)
        (idr : String) (r : String × Int) (s2 : HMState),
      HandleManager.Register s handle path flags lease t idr =
        (Except.ok r, s2) →
      (s2.handles.lookup idr).map ManagedHandle.Handle = some handle) := by
  refine ⟨?_, ?_, ?_⟩
  · intro hexp
    have heq : HandleManager.Get s id now =
        (Except.ok mh.Handle,
          { s with handles := insertKey s.handles id (refreshRecord mh now) },
          []) := by
      simp only [HandleManager.Get, refreshRecord, hlk]
      rw [if_neg hexp]
    refine ⟨heq, ?_⟩
    rw [heq]
    exact lookup_insertKey_self _ _ _
  · intro hexp
    have heq : HandleManager.Get s id now =
        (Except.error HMError.notFound,
          { s with handles := eraseKey s.handles id }, [mh.Handle]) := by
      simp only [HandleManager.Get, hlk]
      rw [if_pos hexp]
    refine ⟨heq, ?_⟩
    rw [heq]
    exact lookup_eraseKey_self _ _
  · intro handle path flags lease t idr r s2 hreg
    by_cases hcap : (s.handles.length : Int) ≥ s.config.MaxHandles
    · simp only [HandleManager.Register, hcap, if_true] at hreg
      exact absurd (congrArg Prod.fst hreg) (by simp)
    · simp only [HandleManager.Register, hcap, if_false] at hreg
      injection hreg with h1 h2
      subst h2
      rw [lookup_insertKey_self]
      rfl

/-- Witness for C1: on a table whose record at `h_a` holds plugin handle 7
with `ExpiresAt = 100`, `Get` at time 30 returns handle 7, and `Get` at time
150 closes plugin handle 7. -/
theorem HandleManager.get_lease_contract_witness :
    (HandleManager.Get exLiveState "h_a" 30).1 = Except.ok 7 ∧
    (HandleManager.Get exLiveState "h_a" 150).2.2 = [7] := by
  constructor
  · have h := (HandleManager.get_lease_contract exLiveState "h_a" 30
      ⟨7, "/test/file.txt", 2, 100, 100, 0, 0⟩ (by decide)).1 (by decide)
    rw [h.1]
  · have h := (HandleManager.get_lease_contract exLiveState "h_a" 150
      ⟨7, "/test/file.txt", 2, 100, 100, 0, 0⟩ (by decide)).2.1 (by decide)
    rw [h.1]

theorem close_not_present (s : HMState) (id : String) (e : Option String)
    (h : s.handles.lookup id = none) :
    HandleManager.Close s id e = (Except.error HMError.notFound, s, []) := by
  simp only [HandleManager.Close, h]

theorem get_not_present (s : HMState) (id : String) (now : Int)
    (h : s.handles.lookup id = none) :
    HandleManager.Get s id now = (Except.error HMError.notFound, s, []) := by
  simp only [HandleManager.Get, h]

theorem renew_not_present (s : HMState) (id : String) (lease now : Int)
    (h : s.handles.lookup id = none) :
    HandleManager.Renew s id lease now =
      (Except.error HMError.notFound, s, []) := by
  simp only [HandleManager.Renew, h]

/-- Claim C2: the first `Close` of a present id invokes the plugin close
exactly once (the close-event list is exactly that one handle) and removes
the record even when the plugin close returns an error (which is forwarded);
afterwards the id maps to nothing, so a second `Close`, a `Get` or a `Renew`
of the same id returns not-found with no plugin close, and every surviving
record has a different id. -/
theorem HandleManager.close_at_most_once (s : HMState) (id : String)
    (mh : ManagedHandle) (e1 e2 : Option String) (now : Int)
    (hlk : s.handles.lookup id = some mh) :
    ((HandleManager.Close s id e1).2.2 = [mh.Handle]) ∧
    ((HandleManager.Close s id e1).2.1.handles.lookup id = none) ∧
    (∀ msg, e1 = some msg →
      (HandleManager.Close s id e1).1 =
        Except.error (HMError.pluginClose msg)) ∧
    (HandleManager.Close (HandleManager.Close s id e1).2.1 id e2 =
      (Except.error HMError.notFound, (HandleManager.Close s id e1).2.1, [])) ∧
    (HandleManager.Get (HandleManager.Close s id e1).2.1 id now =
      (Except.error HMError.notFound, (HandleManager.Close s id e1).2.1, [])) ∧
    (HandleManager.Renew (HandleManager.Close s id e1).2.1 id 0 now =
      (Except.error HMError.notFound, (HandleManager.Close s id e1).2.1, [])) ∧
    (∀ p ∈ (HandleManager.Close s id e1).2.1.handles, p.1 ≠ id) := by
  have hpost : (HandleManager.Close s id e1).2.1 =
      { s with handles := eraseKey s.handles id } := by
    simp only [HandleManager.Close, hlk]
  have hlk2 : (HandleManager.Close s id e1).2.1.handles.lookup id = none := by
    rw [hpost]
    exact lookup_eraseKey_self _ _
  refine ⟨?_, hlk2, ?_, ?_, ?_, ?_, ?_⟩
  · simp only [HandleManager.Close, hlk]
  · intro msg hmsg
    subst hmsg
    simp only [HandleManager.Close, hlk]
  · exact close_not_present _ _ _ hlk2
  · exact get_not_present _ _ _ hlk2
  · exact renew_not_present _ _ _ _ hlk2
  · intro p hp
    rw [hpost] at hp
    exact mem_eraseKey_ne hp

/-- Witness for C2: closing `h_a` with a failing plugin close still reports
exactly one close of plugin handle 7, and a second close returns not-found
without closing anything. -/
theorem HandleManager.close_at_most_once_witness :
    (HandleManager.Close exLiveState "h_a" (some "boom")).2.2 = [7] ∧
    HandleManager.Close (HandleManager.Close exLiveState "h_a"
        (some "boom")).2.1 "h_a" none =
      (Except.error HMError.notFound,
        (HandleManager.Close exLiveState "h_a" (some "boom")).2.1, []) := by
  have h := HandleManager.close_at_most_once exLiveState "h_a"
      ⟨7, "/test/file.txt", 2, 100, 100, 0, 0⟩ (some "boom") none 0 (by decide)
  exact ⟨h.1, h.2.2.2.1⟩

/-- Claim C6: in `Register` a requested lease of zero is replaced by the
configured default lease (which, being within `MaxLease`, is used as is) and
an oversized lease is clamped to `MaxLease`; in `Renew` on a non-expired
record a lease of zero reuses the record's own `LeaseTime` and an oversized
lease is clamped to `MaxLease`; in each case the returned expiry is `now`
plus the clamped lease, which is also stored in the record. -/
theorem HandleManager.lease_clamping (s : HMState) (handle : Nat)
    (path : String) (flags : Nat) (now : Int) (id : String)
    (mh : ManagedHandle) (lease : Int) :
    (¬ (s.handles.length : Int) ≥ s.config.MaxHandles →
      s.config.DefaultLease ≤ s.config.MaxLease →
      (HandleManager.Register s handle path flags 0 now id).1 =
        Except.ok (id, now + s.config.DefaultLease) ∧
      ((HandleManager.Register s handle path flags 0 now id).2.handles.lookup
          id).map ManagedHandle.LeaseTime = some s.config.DefaultLease) ∧
    (¬ (s.handles.length : Int) ≥ s.config.MaxHandles →
      0 < lease → s.config.MaxLease < lease →
      (HandleManager.Register s handle path flags lease now id).1 =
        Except.ok (id, now + s.config.MaxLease) ∧
      ((HandleManager.Register s handle path flags lease now
          id).2.handles.lookup id).map ManagedHandle.LeaseTime =
        some s.config.MaxLease) ∧
    (s.handles.lookup id = some mh → ¬ now > mh.ExpiresAt →
      mh.LeaseTime ≤ s.config.MaxLease →
      (HandleManager.Renew s id 0 now).1 = Except.ok (now + mh.LeaseTime) ∧
      ((HandleManager.Renew s id 0 now).2.1.handles.lookup id).map
        ManagedHandle.LeaseTime = some mh.LeaseTime) ∧
    (s.handles.lookup id = some mh → ¬ now > mh.ExpiresAt →
      0 < lease → s.config.MaxLease < lease →
      (HandleManager.Renew s id lease now).1 =
        Except.ok (now + s.config.MaxLease) ∧
      ((HandleManager.Renew s id lease now).2.1.handles.lookup id).map
        ManagedHandle.LeaseTime = some s.config.MaxLease) := by
  refine ⟨?_, ?_, ?_, ?_⟩
  · intro hcap hdm
    simp only [HandleManager.Register, hcap, if_false]
    rw [if_pos (le_refl (0 : Int)), if_neg (not_lt.mpr hdm)]
    exact ⟨rfl, by rw [lookup_insertKey_self]; rfl⟩
  · intro hcap hpos hml
    simp only [HandleManager.Register, hcap, if_false]
    rw [if_neg (not_le.mpr hpos), if_pos hml]
    exact ⟨rfl, by rw [lookup_insertKey_self]; rfl⟩
  · intro hlk hexp hle
    simp only [HandleManager.Renew, hlk]
    rw [if_neg hexp, if_pos (le_refl (0 : Int)), if_neg (not_lt.mpr hle)]
    exact ⟨rfl, by rw [lookup_insertKey_self]; rfl⟩
  · intro hlk hexp hpos hml
    simp only [HandleManager.Renew, hlk]
    rw [if_neg hexp, if_neg (not_le.mpr hpos), if_pos hml]
    exact ⟨rfl, by rw [lookup_insertKey_self]; rfl⟩

/-- Witness for C6: with default lease 100 and max lease 500, registering
with lease 0 yields expiry `30 + 100`, registering with lease 9999 yields
`30 + 500`, renewing `h_a` (record lease 100) with 0 yields `30 + 100`, and
renewing with 9999 yields `30 + 500`. -/
theorem HandleManager.lease_clamping_witness :
    (HandleManager.Register exLiveState 8 "/test/file.txt" 2 0 30 "h_a").1 =
      Except.ok ("h_a", 30 + exLiveState.config.DefaultLease) ∧
    (HandleManager.Register exLiveState 8 "/test/file.txt" 2 9999 30 "h_a").1 =
      Except.ok ("h_a", 30 + exLiveState.config.MaxLease) ∧
    (HandleManager.Renew exLiveState "h_a" 0 30).1 =
      Except.ok (30 + 100) ∧
    (HandleManager.Renew exLiveState "h_a" 9999 30).1 =
      Except.ok (30 + exLiveState.config.MaxLease) := by
  have h := HandleManager.lease_clamping exLiveState 8 "/test/file.txt" 2 30
      "h_a" ⟨7, "/test/file.txt", 2, 100, 100, 0, 0⟩ 9999
  exact ⟨(h.1 (by decide) (by decide)).1,
    (h.2.1 (by decide) (by decide) (by decide)).1,
    (h.2.2.1 (by decide) (by decide) (by decide)).1,
    (h.2.2.2 (by decide) (by decide) (by decide) (by decide)).1⟩

/-- Claim C7: on a LOCAL FUSE handle the first read performs exactly one
plugin read `(path, 0, -1)`, stores the entire payload in the handle's read
buffer, and serves the request from it; every subsequent read is served from
the buffer with no further plugin read (over any sequence of reads on the
handle, exactly one plugin read happens); and the bytes returned at offset
`o` and size `n` are the slice `[o, min (o + n) len)` of the payload. -/
theorem FuseHandleManager.local_read_buffering (client : String → List Nat)
    (info : LocalHandleInfo) (offset size : Nat) (buf : List Nat)
    (reads : List (Nat × Nat)) :
    (info.readBuffer = none →
      FuseHandleManager.ReadLocal client info offset size =
        (readPortion (client info.path) offset size,
          { info with readBuffer := some (client info.path) },
          [(info.path, 0, -1)])) ∧
    (info.readBuffer = some buf →
      FuseHandleManager.ReadLocal client info offset size =
        (readPortion buf offset size, info, [])) ∧
    (info.readBuffer = some buf →
      (FuseHandleManager.ReadLocalMany client info reads).2 = []) ∧
    (info.readBuffer = none → reads ≠ [] →
      (FuseHandleManager.ReadLocalMany client info reads).2 =
        [(info.path, 0, -1)]) ∧
    (readPortion buf offset size =
      (buf.drop offset).take (min (offset + size) buf.length - offset)) := by
  refine ⟨?_, ?_, ?_, ?_, ?_⟩
  · intro h
    simp only [FuseHandleManager.ReadLocal, h]
  · intro h
    simp only [FuseHandleManager.ReadLocal, h]
  · intro h
    exact (readLocalMany_buffered client info buf h reads).1
  · intro h hne
    exact readLocalMany_fresh client info h reads hne
  · unfold readPortion
    by_cases h : offset ≥ buf.length
    · rw [if_pos h, List.drop_eq_nil_of_le h, List.take_nil]
    · rw [if_neg h]
      exact List.drop_take _ _ _

/-- Witness for C7: with payload `[10, 11, 12, 13]`, the first read at
offset 1 size 2 fetches the whole payload once and returns `[11, 12]`, and
a two-read sequence on a fresh handle performs exactly one plugin read. -/
theorem FuseHandleManager.local_read_buffering_witness :
    FuseHandleManager.ReadLocal (fun _ => [10, 11, 12, 13]) ⟨"/q", none⟩ 1 2 =
      ([11, 12], ⟨"/q", some [10, 11, 12, 13]⟩, [("/q", 0, -1)]) ∧
    (FuseHandleManager.ReadLocalMany (fun _ => [10, 11, 12, 13]) ⟨"/q", none⟩
        [(0, 10), (2, 2)]).2 = [("/q", 0, -1)] := by
  have h := FuseHandleManager.local_read_buffering (fun _ => [10, 11, 12, 13])
      ⟨"/q", none⟩ 1 2 [] [(0, 10), (2, 2)]
  refine ⟨?_, h.2.2.2.1 rfl (by decide)⟩
  rw [h.1 rfl]
  rfl

/-- Counterexample to C8 as stated: devfs is a plugin whose read of `/null`
at offset 0 — `/null` has size 0, so this is a read at end-of-file — returns
the `io.EOF` error rather than an empty byte slice with no error. -/
theorem DevFS.read_eof_counterexample :
    DevFS.Read "/null" 0 1024 = Except.error PluginReadError.eof ∧
    DevFS.Read "/null" 0 1024 ≠ Except.ok [] :=
  ⟨rfl, fun h => Except.noConfusion h⟩

/-- Claim C8 (amended): on the FUSE LOCAL read path a read at an offset at
or past the end of the payload returns an empty byte slice and no error,
both when served from the populated read buffer and on the first, fetching
read; the devfs plugin's `/null` read, by contrast, returns the `io.EOF`
error, so the property does not hold for every plugin. -/
theorem FuseHandleManager.local_read_past_eof (client : String → List Nat)
    (info : LocalHandleInfo) (buf : List Nat) (offset size : Nat) :
    (info.readBuffer = some buf → offset ≥ buf.length →
      FuseHandleManager.ReadLocal client info offset size = ([], info, [])) ∧
    (info.readBuffer = none → offset ≥ (client info.path).length →
      (FuseHandleManager.ReadLocal client info offset size).1 = []) := by
  constructor
  · intro hb hoff
    simp only [FuseHandleManager.ReadLocal, hb, readPortion]
    rw [if_pos hoff]
  · intro hb hoff
    simp only [FuseHandleManager.ReadLocal, hb, readPortion]
    rw [if_pos hoff]

/-- Witness for the amended C8: reading at offset 5 from a handle whose
buffered payload has length 3 returns the empty slice with no plugin read. -/
theorem FuseHandleManager.local_read_past_eof_witness :
    FuseHandleManager.ReadLocal (fun _ => [1, 2, 3]) ⟨"/q", some [1, 2, 3]⟩ 5 4 =
      ([], ⟨"/q", some [1, 2, 3]⟩, []) :=
  (FuseHandleManager.local_read_past_eof (fun _ => [1, 2, 3])
    ⟨"/q", some [1, 2, 3]⟩ [1, 2, 3] 5 4).1 rfl (by decide)

/-- Claim C9: when the queue is full the producing write leaves the queue
untouched (it returns without enqueuing synchronously) and spawns a
supervisor for the task, the in-flight marker having been set; a supervisor
that obtains queue space enqueues the task, while one woken by the shutdown
signal drops the task and removes its in-flight marker without enqueuing;
and a worker finishing the head task removes that task's in-flight marker
whether indexing succeeded or failed. -/
theorem VectorFS.async_overflow_discipline (s : VQState) (t : IndexTask)
    (now : Int) :
    (s.indexQueue.length ≥ s.queueCap →
      (VectorFS.writeEnqueue s t now).indexQueue = s.indexQueue ∧
      (VectorFS.writeEnqueue s t now).supervising = s.supervising ++ [t] ∧
      VectorFS.statusLookup (VectorFS.writeEnqueue s t now).indexingStatus
        t.namespace_ t.digest = some ⟨t.fileName, now⟩) ∧
    ((VectorFS.supervisorResolve s t SupervisorEvent.space).indexQueue =
      s.indexQueue ++ [t]) ∧
    ((VectorFS.supervisorResolve s t
        SupervisorEvent.shutdownSignal).indexQueue = s.indexQueue ∧
      VectorFS.statusLookup (VectorFS.supervisorResolve s t
          SupervisorEvent.shutdownSignal).indexingStatus
        t.namespace_ t.digest = none) ∧
    (∀ (indexOk : Bool) (u : IndexTask) (rest : List IndexTask),
      s.indexQueue = u :: rest →
      (VectorFS.workerStep s indexOk).indexQueue = rest ∧
      VectorFS.statusLookup (VectorFS.workerStep s indexOk).indexingStatus
        u.namespace_ u.digest = none) := by
  refine ⟨?_, ?_, ?_, ?_⟩
  · intro hfull
    simp only [VectorFS.writeEnqueue]
    rw [if_neg (not_lt.mpr hfull)]
    exact ⟨rfl, rfl, statusLookup_addIndexingTask_self _ _ _ _ _⟩
  · rfl
  · constructor
    · rfl
    · exact statusLookup_removeIndexingTask_self _ _ _
  · intro indexOk u rest hq
    refine ⟨?_, ?_⟩
    · simp only [VectorFS.workerStep, hq]
    · simp only [VectorFS.workerStep, hq]
      exact statusLookup_removeIndexingTask_self _ _ _

/-- A full one-slot queue holding one task, with its marker in-flight. -/
def exVQState : VQState :=
  ⟨[⟨"ns1", "d1", "a.txt", "alpha"⟩], 1,
    [("ns1", [("d1", ⟨"a.txt", 0⟩)])], []⟩

/-- Witness for C9: submitting a second task to the full one-slot queue
leaves the queue unchanged and stores the task with a supervisor, and the
worker processing the queued task clears its in-flight marker. -/
theorem VectorFS.async_overflow_discipline_witness :
    (VectorFS.writeEnqueue exVQState ⟨"ns1", "d2", "b.txt", "beta"⟩
        5).indexQueue = [⟨"ns1", "d1", "a.txt", "alpha"⟩] ∧
    (VectorFS.writeEnqueue exVQState ⟨"ns1", "d2", "b.txt", "beta"⟩
        5).supervising = [⟨"ns1", "d2", "b.txt", "beta"⟩] ∧
    VectorFS.statusLookup (VectorFS.workerStep exVQState true).indexingStatus
      "ns1" "d1" = none := by
  have h := VectorFS.async_overflow_discipline exVQState
      ⟨"ns1", "d2", "b.txt", "beta"⟩ 5
  have h1 := h.1 (by decide)
  exact ⟨h1.1, h1.2.1,
    (h.2.2.2 true ⟨"ns1", "d1", "a.txt", "alpha"⟩ [] rfl).2⟩
